import Mathlib

/-!
Shallow embedding of the jstream-ext stream-combinator library.

Each Rust combinator's `poll` / `poll_next` is translated into a Lean
function over an explicit machine state.  An upstream stream is modelled
as a finite script of poll results: `Ev.pending` stands for
`Poll::Pending`, `Ev.item v` for `Poll::Ready(Some(v))`, and the end of
the list for `Poll::Ready(None)` (a fused upstream keeps answering
`None` once the script is exhausted).  For fallible streams `TEv.ok` and
`TEv.err` stand for `Some(Ok(v))` and `Some(Err(e))`.

A handler future of the fold combinators is modelled as a delay count
(number of polls returning `Pending` before completion) plus the value
the future's side effect leaves in the accumulator; `panic!` is the
`fatal` outcome.  The external executor that re-polls a suspended
future/stream is the fuel-indexed `driveP` / `collectP` below, where the
fuel counts how many `Pending` results the executor is willing to wait
through.
-/

namespace JStreamExt

/-- One poll answer of an infallible upstream: `Poll::Pending` or
`Poll::Ready(Some(v))`.  End of script = `Poll::Ready(None)` forever. -/
inductive Ev (α : Type) where
  | pending
  | item (a : α)

/-- One poll answer of a fallible upstream: `Poll::Pending`,
`Poll::Ready(Some(Ok(v)))` or `Poll::Ready(Some(Err(e)))`. -/
inductive TEv (α ε : Type) where
  | pending
  | ok (a : α)
  | err (e : ε)

/-- The values carried by an infallible script, in order. -/
def Ev.vals : List (Ev α) → List α
  | [] => []
  | .pending :: r => Ev.vals r
  | .item v :: r => v :: Ev.vals r

/-- The `Ok` values carried by a fallible script, in order. -/
def TEv.okVals : List (TEv α ε) → List α
  | [] => []
  | .pending :: r => TEv.okVals r
  | .ok v :: r => v :: TEv.okVals r
  | .err _ :: r => TEv.okVals r

/-- The `Err` values carried by a fallible script, in order. -/
def TEv.errVals : List (TEv α ε) → List ε
  | [] => []
  | .pending :: r => TEv.errVals r
  | .ok _ :: r => TEv.errVals r
  | .err e :: r => e :: TEv.errVals r

/-- Result of one `poll` of a future combinator: propagate `Pending`
(carrying the updated machine), resolve with a value, or `panic!`. -/
inductive FPoll (M β : Type) where
  | suspend (m : M)
  | ready (r : β) (m : M)
  | fatal

/-- Terminal outcome of driving a future combinator. -/
inductive FOut (M β : Type) where
  | ready (r : β) (m : M)
  | fatal

/-- The external executor for a future: re-polls while the combinator
reports `Pending`; the fuel bounds the number of suspensions waited
through, so `none` means the future did not resolve within `fuel`
suspensions. -/
def driveP (poll : M → FPoll M β) : Nat → M → Option (FOut M β)
  | 0, m =>
    match poll m with
    | .ready r m2 => some (.ready r m2)
    | .fatal => some .fatal
    | .suspend _ => none
  | n + 1, m =>
    match poll m with
    | .ready r m2 => some (.ready r m2)
    | .fatal => some .fatal
    | .suspend m2 => driveP poll n m2

/-- The resolved value of a driven future, if any (`fatal` has none). -/
def FOut.val : FOut M β → Option β
  | .ready r _ => some r
  | .fatal => none

/-- Result of one `poll_next` of a stream combinator. -/
inductive SPoll (M ι : Type) where
  | suspend (m : M)
  | item (i : ι) (m : M)
  | done (m : M)
  | fatal

/-- Outcome of draining a stream combinator: the emitted items plus the
machine at exhaustion, or the items emitted before a `panic!`. -/
inductive CollectOut (ι M : Type) where
  | out (items : List ι) (m : M)
  | bad (items : List ι)

/-- The external executor for a stream: polls repeatedly, gathering
every emitted item, until the stream reports exhaustion.  The fuel
bounds the number of polls. -/
def collectP (poll : M → SPoll M ι) : Nat → M → Option (CollectOut ι M)
  | 0, _ => none
  | n + 1, m =>
    match poll m with
    | .done m2 => some (.out [] m2)
    | .fatal => some (.bad [])
    | .suspend m2 => collectP poll n m2
    | .item a m2 =>
      match collectP poll n m2 with
      | some (.out l mf) => some (.out (a :: l) mf)
      | some (.bad l) => some (.bad (a :: l))
      | none => none

/-- Just the items of a drained stream. -/
def collectItems (poll : M → SPoll M ι) (fuel : Nat) (m : M) : Option (List ι) :=
  match collectP poll fuel m with
  | some (.out l _) => some l
  | some (.bad l) => some l
  | none => none

/-- Whether a stream poll result is a propagated `Pending`. -/
def SPoll.isSuspend : SPoll M ι → Bool
  | .suspend _ => true
  | _ => false

section FoldMut

/-!
`FoldMut` (src/fold_mut.rs, lines 90–152).  Rust state: pinned
`upstream`, pinned `pending_future: Option<Fut>`, `state: Option<T>`,
and the `handler` closure.  The handler is modelled as a pure function
`h : σ → α → Nat × σ`: applied to the current accumulator and the next
value it yields the delay of the returned future (how many polls it
answers `Pending` before completing) and the accumulator value its
side effect leaves behind when it completes.  A pending future is the
pair (remaining delay, accumulator-on-completion).
-/

/-- State of the `FoldMut` future. -/
structure FoldMut (σ α : Type) where
  upstream : List (Ev α)
  pending_future : Option (Nat × σ)
  state : Option σ

/-- The poll loop of `FoldMut::poll` from the point where any pending
handler future has just completed (so `pending_future` is `None`):
poll the upstream, on an item invoke the handler and immediately poll
the new future (loop), on exhaustion take the accumulator out of its
slot (`expect` = `fatal` when the slot is empty). -/
def FoldMut.pollGo (h : σ → α → Nat × σ) :
    List (Ev α) → Option σ → FPoll (FoldMut σ α) σ
  | [], some acc => .ready acc ⟨[], none, none⟩
  | [], none => .fatal
  | .pending :: rest, st => .suspend ⟨rest, none, st⟩
  | .item v :: rest, some acc =>
    if (h acc v).1 = 0 then
      FoldMut.pollGo h rest (some (h acc v).2)
    else
      .suspend ⟨rest, some ((h acc v).1 - 1, (h acc v).2), some acc⟩
  | .item _ :: _, none => .fatal

/-- `FoldMut::poll`: first drive any pending handler future (propagating
`Pending` with the future one step further along), then run the poll
loop. -/
def FoldMut.poll (h : σ → α → Nat × σ) (m : FoldMut σ α) : FPoll (FoldMut σ α) σ :=
  match m.pending_future with
  | some (d, acc2) =>
    if d = 0 then FoldMut.pollGo h m.upstream (some acc2)
    else .suspend ⟨m.upstream, some (d - 1, acc2), m.state⟩
  | none => FoldMut.pollGo h m.upstream m.state

/-- Number of suspensions `FoldMut` goes through on a given script:
one per upstream `Pending` plus the delay of each handler future. -/
def foldCost (h : σ → α → Nat × σ) : σ → List (Ev α) → Nat
  | _, [] => 0
  | acc, .pending :: r => foldCost h acc r + 1
  | acc, .item v :: r => (h acc v).1 + foldCost h (h acc v).2 r

end FoldMut

theorem driveP_congr (poll : M → FPoll M β) (m1 m2 : M)
    (hp : poll m1 = poll m2) : ∀ f, driveP poll f m1 = driveP poll f m2 := by
  intro f
  cases f with
  | zero => simp only [driveP, hp]
  | succ n => simp only [driveP, hp]

theorem foldMut_pend_wait (h : σ → α → Nat × σ) (r : List (Ev α)) (acc2 : σ) :
    ∀ (d f : Nat) (stv : Option σ),
      driveP (FoldMut.poll h) (d + f) ⟨r, some (d, acc2), stv⟩
        = driveP (FoldMut.poll h) f ⟨r, none, some acc2⟩ := by
  intro d
  induction d with
  | zero =>
    intro f stv
    have hp : FoldMut.poll h ⟨r, some (0, acc2), stv⟩
        = FoldMut.poll h ⟨r, none, some acc2⟩ := by
      simp [FoldMut.poll]
    simpa using driveP_congr (FoldMut.poll h) _ _ hp f
  | succ d ih =>
    intro f stv
    have harith : d + 1 + f = (d + f) + 1 := by omega
    rw [harith]
    have hp : FoldMut.poll h ⟨r, some (d + 1, acc2), stv⟩
        = .suspend ⟨r, some (d, acc2), stv⟩ := by
      simp [FoldMut.poll]
    simp only [driveP, hp]
    exact ih f stv

theorem foldMut_master (h : σ → α → Nat × σ) :
    ∀ (up : List (Ev α)) (acc : σ),
      driveP (FoldMut.poll h) (foldCost h acc up) ⟨up, none, some acc⟩
        = some (.ready (List.foldl (fun a v => (h a v).2) acc (Ev.vals up))
            ⟨[], none, none⟩) := by
  intro up
  induction up with
  | nil =>
    intro acc
    simp [driveP, foldCost, FoldMut.poll, FoldMut.pollGo, Ev.vals]
  | cons hd tl ih =>
    intro acc
    cases hd with
    | pending =>
      have hp : FoldMut.poll h ⟨Ev.pending :: tl, none, some acc⟩
          = .suspend ⟨tl, none, some acc⟩ := by
        simp [FoldMut.poll, FoldMut.pollGo]
      simp only [foldCost, driveP, hp, Ev.vals]
      exact ih acc
    | item v =>
      by_cases hd0 : (h acc v).1 = 0
      · have hp : FoldMut.poll h ⟨Ev.item v :: tl, none, some acc⟩
            = FoldMut.poll h ⟨tl, none, some (h acc v).2⟩ := by
          simp [FoldMut.poll, FoldMut.pollGo, hd0]
        have := driveP_congr (FoldMut.poll h) _ _ hp
          (foldCost h acc (Ev.item v :: tl))
        rw [this]
        have hc : foldCost h acc (Ev.item v :: tl)
            = foldCost h (h acc v).2 tl := by
          simp [foldCost, hd0]
        rw [hc]
        simpa [Ev.vals, List.foldl] using ih (h acc v).2
      · obtain ⟨d0, hd⟩ : ∃ d0, (h acc v).1 = d0 + 1 := by
          refine ⟨(h acc v).1 - 1, ?_⟩
          omega
        have hp : FoldMut.poll h ⟨Ev.item v :: tl, none, some acc⟩
            = .suspend ⟨tl, some ((h acc v).1 - 1, (h acc v).2), some acc⟩ := by
          simp [FoldMut.poll, FoldMut.pollGo, hd0]
        have hc : foldCost h acc (Ev.item v :: tl)
            = (d0 + foldCost h (h acc v).2 tl) + 1 := by
          simp only [foldCost, hd]
          omega
        rw [hc]
        simp only [driveP, hp]
        have hd1 : (h acc v).1 - 1 = d0 := by omega
        rw [hd1]
        rw [foldMut_pend_wait h tl (h acc v).2 d0 (foldCost h (h acc v).2 tl) (some acc)]
        simpa [Ev.vals, List.foldl] using ih (h acc v).2

section TryFoldMut

/-!
`TryFoldMut` (src/fold_mut.rs, lines 6–75).  The fallible handler is
modelled as `h : σ → α → Nat × Except ε σ`: delay of the returned
future plus its completion outcome — `Except.ok acc2` for
`Ok(())` with the accumulator mutated to `acc2`, `Except.error e` for
`Err(e)`.  On a handler error or an upstream error the code takes the
accumulator out of its slot (`state.take()`) and resolves with the
error; the remaining upstream script is left in place untouched.
-/

/-- State of the `TryFoldMut` future. -/
structure TryFoldMut (σ α ε : Type) where
  upstream : List (TEv α ε)
  pending_future : Option (Nat × Except ε σ)
  state : Option σ

/-- The poll loop of `TryFoldMut::poll` from the point where any
pending handler future has just completed with `Ok(())`. -/
def TryFoldMut.pollGo (h : σ → α → Nat × Except ε σ) :
    List (TEv α ε) → Option σ → FPoll (TryFoldMut σ α ε) (Except ε σ)
  | [], some acc => .ready (.ok acc) ⟨[], none, none⟩
  | [], none => .fatal
  | .pending :: rest, st => .suspend ⟨rest, none, st⟩
  | .ok v :: rest, some acc =>
    if (h acc v).1 = 0 then
      match (h acc v).2 with
      | .ok acc2 => TryFoldMut.pollGo h rest (some acc2)
      | .error e => .ready (.error e) ⟨rest, none, none⟩
    else
      .suspend ⟨rest, some ((h acc v).1 - 1, (h acc v).2), some acc⟩
  | .ok _ :: _, none => .fatal
  | .err e :: rest, _ => .ready (.error e) ⟨rest, none, none⟩

/-- `TryFoldMut::poll`: drive any pending handler future first; on its
error resolve immediately with the accumulator slot emptied, on its
success continue the poll loop. -/
def TryFoldMut.poll (h : σ → α → Nat × Except ε σ) (m : TryFoldMut σ α ε) :
    FPoll (TryFoldMut σ α ε) (Except ε σ) :=
  match m.pending_future with
  | some (d, res) =>
    if d = 0 then
      match res with
      | .ok acc2 => TryFoldMut.pollGo h m.upstream (some acc2)
      | .error e => .ready (.error e) ⟨m.upstream, none, none⟩
    else .suspend ⟨m.upstream, some (d - 1, res), m.state⟩
  | none => TryFoldMut.pollGo h m.upstream m.state

/-- Reference semantics of the fallible fold: the final
accumulator-or-error, plus the upstream script left unconsumed at
resolution. -/
def tryFoldRun (h : σ → α → Nat × Except ε σ) :
    σ → List (TEv α ε) → Except ε σ × List (TEv α ε)
  | acc, [] => (.ok acc, [])
  | acc, .pending :: r => tryFoldRun h acc r
  | acc, .ok v :: r =>
    match (h acc v).2 with
    | .ok acc2 => tryFoldRun h acc2 r
    | .error e => (.error e, r)
  | _, .err e :: r => (.error e, r)

/-- Number of suspensions `TryFoldMut` goes through on a given script. -/
def tryFoldCost (h : σ → α → Nat × Except ε σ) : σ → List (TEv α ε) → Nat
  | _, [] => 0
  | acc, .pending :: r => tryFoldCost h acc r + 1
  | acc, .ok v :: r =>
    (h acc v).1 +
      (match (h acc v).2 with
       | .ok acc2 => tryFoldCost h acc2 r
       | .error _ => 0)
  | _, .err _ :: _ => 0

end TryFoldMut

theorem tryFoldMut_pend_wait_ok (h : σ → α → Nat × Except ε σ)
    (r : List (TEv α ε)) (acc2 : σ) :
    ∀ (d f : Nat) (stv : Option σ),
      driveP (TryFoldMut.poll h) (d + f) ⟨r, some (d, .ok acc2), stv⟩
        = driveP (TryFoldMut.poll h) f ⟨r, none, some acc2⟩ := by
  intro d
  induction d with
  | zero =>
    intro f stv
    have hp : TryFoldMut.poll h ⟨r, some (0, .ok acc2), stv⟩
        = TryFoldMut.poll h ⟨r, none, some acc2⟩ := by
      simp [TryFoldMut.poll]
    simpa using driveP_congr (TryFoldMut.poll h) _ _ hp f
  | succ d ih =>
    intro f stv
    have harith : d + 1 + f = (d + f) + 1 := by omega
    rw [harith]
    have hp : TryFoldMut.poll h ⟨r, some (d + 1, .ok acc2), stv⟩
        = .suspend ⟨r, some (d, .ok acc2), stv⟩ := by
      simp [TryFoldMut.poll]
    simp only [driveP, hp]
    exact ih f stv

theorem tryFoldMut_pend_wait_err (h : σ → α → Nat × Except ε σ)
    (r : List (TEv α ε)) (e : ε) :
    ∀ (d f : Nat) (stv : Option σ),
      driveP (TryFoldMut.poll h) (d + f) ⟨r, some (d, .error e), stv⟩
        = some (.ready (.error e) ⟨r, none, none⟩) := by
  intro d
  induction d with
  | zero =>
    intro f stv
    have hp : TryFoldMut.poll h ⟨r, some (0, .error e), stv⟩
        = .ready (.error e) ⟨r, none, none⟩ := by
      simp [TryFoldMut.poll]
    cases f with
    | zero => simp only [driveP, hp]
    | succ n => simp only [driveP, hp]
  | succ d ih =>
    intro f stv
    have harith : d + 1 + f = (d + f) + 1 := by omega
    rw [harith]
    have hp : TryFoldMut.poll h ⟨r, some (d + 1, .error e), stv⟩
        = .suspend ⟨r, some (d, .error e), stv⟩ := by
      simp [TryFoldMut.poll]
    simp only [driveP, hp]
    exact ih f stv

theorem tryFoldMut_master (h : σ → α → Nat × Except ε σ) :
    ∀ (up : List (TEv α ε)) (acc : σ),
      driveP (TryFoldMut.poll h) (tryFoldCost h acc up) ⟨up, none, some acc⟩
        = some (.ready (tryFoldRun h acc up).1 ⟨(tryFoldRun h acc up).2, none, none⟩) := by
  intro up
  induction up with
  | nil =>
    intro acc
    simp [driveP, tryFoldCost, TryFoldMut.poll, TryFoldMut.pollGo, tryFoldRun]
  | cons hd tl ih =>
    intro acc
    cases hd with
    | pending =>
      have hp : TryFoldMut.poll h ⟨TEv.pending :: tl, none, some acc⟩
          = .suspend ⟨tl, none, some acc⟩ := by
        simp [TryFoldMut.poll, TryFoldMut.pollGo]
      simp only [tryFoldCost, driveP, hp, tryFoldRun]
      exact ih acc
    | err e =>
      have hp : TryFoldMut.poll h ⟨TEv.err e :: tl, none, some acc⟩
          = .ready (.error e) ⟨tl, none, none⟩ := by
        simp [TryFoldMut.poll, TryFoldMut.pollGo]
      simp [tryFoldCost, driveP, hp, tryFoldRun]
    | ok v =>
      by_cases hd0 : (h acc v).1 = 0
      · cases hres : (h acc v).2 with
        | ok acc2 =>
          have hp : TryFoldMut.poll h ⟨TEv.ok v :: tl, none, some acc⟩
              = TryFoldMut.poll h ⟨tl, none, some acc2⟩ := by
            simp [TryFoldMut.poll, TryFoldMut.pollGo, hd0, hres]
          have := driveP_congr (TryFoldMut.poll h) _ _ hp
            (tryFoldCost h acc (TEv.ok v :: tl))
          rw [this]
          have hc : tryFoldCost h acc (TEv.ok v :: tl)
              = tryFoldCost h acc2 tl := by
            simp [tryFoldCost, hd0, hres]
          have hr : tryFoldRun h acc (TEv.ok v :: tl)
              = tryFoldRun h acc2 tl := by
            simp [tryFoldRun, hres]
          rw [hc, hr]
          exact ih acc2
        | error e =>
          have hp : TryFoldMut.poll h ⟨TEv.ok v :: tl, none, some acc⟩
              = .ready (.error e) ⟨tl, none, none⟩ := by
            simp [TryFoldMut.poll, TryFoldMut.pollGo, hd0, hres]
          have hc : tryFoldCost h acc (TEv.ok v :: tl) = 0 := by
            simp [tryFoldCost, hd0, hres]
          have hr : tryFoldRun h acc (TEv.ok v :: tl) = (.error e, tl) := by
            simp [tryFoldRun, hres]
          rw [hc, hr]
          simp only [driveP, hp]
      · obtain ⟨d0, hd⟩ : ∃ d0, (h acc v).1 = d0 + 1 := by
          refine ⟨(h acc v).1 - 1, ?_⟩
          omega
        have hp : TryFoldMut.poll h ⟨TEv.ok v :: tl, none, some acc⟩
            = .suspend ⟨tl, some ((h acc v).1 - 1, (h acc v).2), some acc⟩ := by
          simp [TryFoldMut.poll, TryFoldMut.pollGo, hd0]
        have hd1 : (h acc v).1 - 1 = d0 := by omega
        cases hres : (h acc v).2 with
        | ok acc2 =>
          have hc : tryFoldCost h acc (TEv.ok v :: tl)
              = (d0 + tryFoldCost h acc2 tl) + 1 := by
            simp only [tryFoldCost, hd, hres]
            omega
          have hr : tryFoldRun h acc (TEv.ok v :: tl)
              = tryFoldRun h acc2 tl := by
            simp [tryFoldRun, hres]
          rw [hc, hr]
          simp only [driveP, hp, hd1, hres]
          rw [tryFoldMut_pend_wait_ok h tl acc2 d0 (tryFoldCost h acc2 tl) (some acc)]
          exact ih acc2
        | error e =>
          have hc : tryFoldCost h acc (TEv.ok v :: tl) = (d0 + 0) + 1 := by
            simp only [tryFoldCost, hd, hres]
          have hr : tryFoldRun h acc (TEv.ok v :: tl) = (.error e, tl) := by
            simp [tryFoldRun, hres]
          rw [hc, hr]
          simp only [driveP, hp, hd1, hres]
          simpa using tryFoldMut_pend_wait_err h tl e d0 0 (some acc)

theorem collectP_mono (poll : M → SPoll M ι) :
    ∀ (n : Nat) (m : M) (x : CollectOut ι M),
      collectP poll n m = some x → collectP poll (n + 1) m = some x := by
  intro n
  induction n with
  | zero => intro m x hx; simp [collectP] at hx
  | succ n ih =>
    intro m x hx
    rw [collectP] at hx
    rw [collectP]
    cases hpoll : poll m with
    | done m2 => rw [hpoll] at hx; simpa using hx
    | fatal => rw [hpoll] at hx; simpa using hx
    | suspend m2 =>
      rw [hpoll] at hx
      exact ih m2 x hx
    | item a m2 =>
      rw [hpoll] at hx
      have hx2 : (match collectP poll n m2 with
          | some (CollectOut.out l mf) => some (CollectOut.out (a :: l) mf)
          | some (CollectOut.bad l) => some (CollectOut.bad (a :: l))
          | none => none) = some x := hx
      show (match collectP poll (n + 1) m2 with
          | some (CollectOut.out l mf) => some (CollectOut.out (a :: l) mf)
          | some (CollectOut.bad l) => some (CollectOut.bad (a :: l))
          | none => none) = some x
      cases hrec : collectP poll n m2 with
      | none => rw [hrec] at hx2; simp at hx2
      | some y =>
        rw [hrec] at hx2
        rw [ih m2 y hrec]
        exact hx2

theorem collectP_congr (poll : M → SPoll M ι) (m1 m2 : M)
    (hp : poll m1 = poll m2) (n : Nat) :
    collectP poll (n + 1) m1 = collectP poll (n + 1) m2 := by
  rw [collectP, collectP, hp]

theorem collectP_item (poll : M → SPoll M ι) (n : Nat) (m m2 : M) (a : ι)
    (hp : poll m = .item a m2) :
    collectP poll (n + 1) m
      = (match collectP poll n m2 with
         | some (.out l mf) => some (.out (a :: l) mf)
         | some (.bad l) => some (.bad (a :: l))
         | none => none) := by
  rw [collectP, hp]

theorem collectP_suspend (poll : M → SPoll M ι) (n : Nat) (m m2 : M)
    (hp : poll m = .suspend m2) :
    collectP poll (n + 1) m = collectP poll n m2 := by
  rw [collectP, hp]

section Dedup

/-!
`DedupStream` and `TryDedupStream` (src/dedup.rs).  The `RandomState`
hasher is modelled as an explicit fingerprint function
`hash : α → Nat` (the 64-bit fingerprint `hash(value) -> u64`), and the
`HashSet<u64>` of already-seen fingerprints as a list: `insert`
returns whether the fingerprint was new, exactly like
`HashSet::insert`.
-/

/-- State of `DedupStream`: the upstream and the set of seen
fingerprints (`size_hint` is frozen at construction and plays no role
in these claims). -/
structure DedupStream (α : Type) where
  src : List (Ev α)
  known : List Nat

/-- The poll loop of `DedupStream::poll_next`: forward a value whose
fingerprint is new, silently drop a repeat and immediately re-poll the
upstream within the same call, forward `Pending` and exhaustion. -/
def DedupStream.pollLoop (hash : α → Nat) :
    List (Ev α) → List Nat → SPoll (DedupStream α) α
  | [], k => .done ⟨[], k⟩
  | .pending :: r, k => .suspend ⟨r, k⟩
  | .item v :: r, k =>
    if hash v ∈ k then DedupStream.pollLoop hash r k
    else .item v ⟨r, hash v :: k⟩

/-- `DedupStream::poll_next`. -/
def DedupStream.poll_next (hash : α → Nat) (m : DedupStream α) :
    SPoll (DedupStream α) α :=
  DedupStream.pollLoop hash m.src m.known

/-- State of `TryDedupStream`. -/
structure TryDedupStream (α ε : Type) where
  src : List (TEv α ε)
  known : List Nat

/-- The poll loop of `TryDedupStream::poll_next`: only `Ok` values are
fingerprinted and deduplicated; `Err` values and exhaustion are
forwarded verbatim (`other => return Ready(other)`), leaving the seen
set untouched. -/
def TryDedupStream.pollLoop (hash : α → Nat) :
    List (TEv α ε) → List Nat → SPoll (TryDedupStream α ε) (Except ε α)
  | [], k => .done ⟨[], k⟩
  | .pending :: r, k => .suspend ⟨r, k⟩
  | .ok v :: r, k =>
    if hash v ∈ k then TryDedupStream.pollLoop hash r k
    else .item (.ok v) ⟨r, hash v :: k⟩
  | .err e :: r, k => .item (.error e) ⟨r, k⟩

/-- `TryDedupStream::poll_next`. -/
def TryDedupStream.poll_next (hash : α → Nat) (m : TryDedupStream α ε) :
    SPoll (TryDedupStream α ε) (Except ε α) :=
  TryDedupStream.pollLoop hash m.src m.known

/-- Reference semantics of deduplication: keep a value exactly when no
earlier value had the same fingerprint (first occurrences, compared by
fingerprint equality). -/
def firstOccurs (hash : α → Nat) : List Nat → List α → List α
  | _, [] => []
  | seen, v :: r =>
    if hash v ∈ seen then firstOccurs hash seen r
    else v :: firstOccurs hash (hash v :: seen) r

/-- The seen-fingerprint set after deduplicating a value list. -/
def seenAfter (hash : α → Nat) : List Nat → List α → List Nat
  | seen, [] => seen
  | seen, v :: r =>
    if hash v ∈ seen then seenAfter hash seen r
    else seenAfter hash (hash v :: seen) r

/-- Reference semantics of fallible deduplication: `Ok` values are
deduplicated by fingerprint, `Err` values pass through verbatim. -/
def tryDedupSpec (hash : α → Nat) : List Nat → List (TEv α ε) → List (Except ε α)
  | _, [] => []
  | seen, .pending :: r => tryDedupSpec hash seen r
  | seen, .ok v :: r =>
    if hash v ∈ seen then tryDedupSpec hash seen r
    else .ok v :: tryDedupSpec hash (hash v :: seen) r
  | seen, .err e :: r => .error e :: tryDedupSpec hash seen r

/-- The seen set after running fallible deduplication. -/
def trySeenAfter (hash : α → Nat) : List Nat → List (TEv α ε) → List Nat
  | seen, [] => seen
  | seen, .pending :: r => trySeenAfter hash seen r
  | seen, .ok v :: r =>
    if hash v ∈ seen then trySeenAfter hash seen r
    else trySeenAfter hash (hash v :: seen) r
  | seen, .err _ :: r => trySeenAfter hash seen r

/-- The `Ok` component of an emitted fallible item. -/
def okPart : Except ε α → Option α
  | .ok v => some v
  | .error _ => none

/-- The `Err` component of an emitted fallible item. -/
def errPart : Except ε α → Option ε
  | .ok _ => none
  | .error e => some e

end Dedup

theorem dedup_collect (hash : α → Nat) :
    ∀ (src : List (Ev α)) (known : List Nat),
      collectP (DedupStream.poll_next hash) (src.length + 1) ⟨src, known⟩
        = some (.out (firstOccurs hash known (Ev.vals src))
            ⟨[], seenAfter hash known (Ev.vals src)⟩) := by
  intro src
  induction src with
  | nil =>
    intro known
    simp [collectP, DedupStream.poll_next, DedupStream.pollLoop, Ev.vals,
      firstOccurs, seenAfter]
  | cons hd tl ih =>
    intro known
    cases hd with
    | pending =>
      have hp : DedupStream.poll_next hash ⟨Ev.pending :: tl, known⟩
          = .suspend ⟨tl, known⟩ := by
        simp [DedupStream.poll_next, DedupStream.pollLoop]
      have : collectP (DedupStream.poll_next hash) ((Ev.pending :: tl).length + 1)
          ⟨Ev.pending :: tl, known⟩
          = collectP (DedupStream.poll_next hash) (tl.length + 1) ⟨tl, known⟩ := by
        simp only [List.length_cons]
        rw [collectP, hp]
      rw [this, ih known]
      simp [Ev.vals]
    | item v =>
      by_cases hmem : hash v ∈ known
      · have hp : DedupStream.poll_next hash ⟨Ev.item v :: tl, known⟩
            = DedupStream.poll_next hash ⟨tl, known⟩ := by
          simp [DedupStream.poll_next, DedupStream.pollLoop, hmem]
        have h1 : collectP (DedupStream.poll_next hash) (tl.length + 1 + 1)
            ⟨Ev.item v :: tl, known⟩
            = collectP (DedupStream.poll_next hash) (tl.length + 1 + 1) ⟨tl, known⟩ :=
          collectP_congr _ _ _ hp (tl.length + 1)
        have h2 := collectP_mono (DedupStream.poll_next hash) (tl.length + 1)
          ⟨tl, known⟩ _ (ih known)
        simp only [List.length_cons]
        rw [h1, h2]
        simp [Ev.vals, firstOccurs, seenAfter, hmem]
      · have hp : DedupStream.poll_next hash ⟨Ev.item v :: tl, known⟩
            = .item v ⟨tl, hash v :: known⟩ := by
          simp [DedupStream.poll_next, DedupStream.pollLoop, hmem]
        simp only [List.length_cons]
        rw [collectP_item _ _ _ _ _ hp, ih (hash v :: known)]
        simp [Ev.vals, firstOccurs, seenAfter, hmem]

theorem tryDedup_collect (hash : α → Nat) :
    ∀ (src : List (TEv α ε)) (known : List Nat),
      collectP (TryDedupStream.poll_next hash) (src.length + 1) ⟨src, known⟩
        = some (.out (tryDedupSpec hash known src)
            ⟨[], trySeenAfter hash known src⟩) := by
  intro src
  induction src with
  | nil =>
    intro known
    simp [collectP, TryDedupStream.poll_next, TryDedupStream.pollLoop,
      tryDedupSpec, trySeenAfter]
  | cons hd tl ih =>
    intro known
    cases hd with
    | pending =>
      have hp : TryDedupStream.poll_next hash ⟨TEv.pending :: tl, known⟩
          = .suspend ⟨tl, known⟩ := by
        simp [TryDedupStream.poll_next, TryDedupStream.pollLoop]
      have : collectP (TryDedupStream.poll_next hash) ((TEv.pending :: tl).length + 1)
          ⟨TEv.pending :: tl, known⟩
          = collectP (TryDedupStream.poll_next hash) (tl.length + 1) ⟨tl, known⟩ := by
        simp only [List.length_cons]
        rw [collectP, hp]
      rw [this, ih known]
      simp [tryDedupSpec, trySeenAfter]
    | ok v =>
      by_cases hmem : hash v ∈ known
      · have hp : TryDedupStream.poll_next hash ⟨TEv.ok v :: tl, known⟩
            = TryDedupStream.poll_next hash ⟨tl, known⟩ := by
          simp [TryDedupStream.poll_next, TryDedupStream.pollLoop, hmem]
        have h1 : collectP (TryDedupStream.poll_next hash) (tl.length + 1 + 1)
            ⟨TEv.ok v :: tl, known⟩
            = collectP (TryDedupStream.poll_next hash) (tl.length + 1 + 1) ⟨tl, known⟩ :=
          collectP_congr _ _ _ hp (tl.length + 1)
        have h2 := collectP_mono (TryDedupStream.poll_next hash) (tl.length + 1)
          ⟨tl, known⟩ _ (ih known)
        simp only [List.length_cons]
        rw [h1, h2]
        simp [tryDedupSpec, trySeenAfter, hmem]
      · have hp : TryDedupStream.poll_next hash ⟨TEv.ok v :: tl, known⟩
            = .item (.ok v) ⟨tl, hash v :: known⟩ := by
          simp [TryDedupStream.poll_next, TryDedupStream.pollLoop, hmem]
        simp only [List.length_cons]
        rw [collectP_item _ _ _ _ _ hp, ih (hash v :: known)]
        simp [tryDedupSpec, trySeenAfter, hmem]
    | err e =>
      have hp : TryDedupStream.poll_next hash ⟨TEv.err e :: tl, known⟩
          = .item (.error e) ⟨tl, known⟩ := by
        simp [TryDedupStream.poll_next, TryDedupStream.pollLoop]
      simp only [List.length_cons]
      rw [collectP_item _ _ _ _ _ hp, ih known]
      simp [tryDedupSpec, trySeenAfter]

theorem tryDedupSpec_okPart (hash : α → Nat) :
    ∀ (src : List (TEv α ε)) (seen : List Nat),
      (tryDedupSpec hash seen src).filterMap okPart
        = firstOccurs hash seen (TEv.okVals src) := by
  intro src
  induction src with
  | nil => intro seen; simp [tryDedupSpec, TEv.okVals, firstOccurs]
  | cons hd tl ih =>
    intro seen
    cases hd with
    | pending => simpa [tryDedupSpec, TEv.okVals] using ih seen
    | ok v =>
      by_cases hmem : hash v ∈ seen
      · simpa [tryDedupSpec, TEv.okVals, firstOccurs, hmem] using ih seen
      · simpa [tryDedupSpec, TEv.okVals, firstOccurs, hmem, okPart]
          using ih (hash v :: seen)
    | err e => simpa [tryDedupSpec, TEv.okVals, okPart] using ih seen

theorem tryDedupSpec_errPart (hash : α → Nat) :
    ∀ (src : List (TEv α ε)) (seen : List Nat),
      (tryDedupSpec hash seen src).filterMap errPart = TEv.errVals src := by
  intro src
  induction src with
  | nil => intro seen; simp [tryDedupSpec, TEv.errVals]
  | cons hd tl ih =>
    intro seen
    cases hd with
    | pending => simpa [tryDedupSpec, TEv.errVals] using ih seen
    | ok v =>
      by_cases hmem : hash v ∈ seen
      · simpa [tryDedupSpec, TEv.errVals, hmem] using ih seen
      · simpa [tryDedupSpec, TEv.errVals, hmem, errPart] using ih (hash v :: seen)
    | err e => simpa [tryDedupSpec, TEv.errVals, errPart] using ih seen

section FuseOnFail

/-!
`FuseOnFail` (src/fuse_on_fail.rs).  Two boolean flags: `fused`
(checked first; a poll with `fused` set is `panic!("poll after
fused!")`) and `failed` (set when an upstream error was forwarded; the
next poll then sets `fused` and reports exhaustion without touching
the upstream).  `is_terminated` returns `fused`.
-/

/-- State of `FuseOnFail`. -/
structure FuseOnFail (α ε : Type) where
  src : List (TEv α ε)
  fused : Bool
  failed : Bool

/-- `FuseOnFail::poll_next`. -/
def FuseOnFail.poll_next (m : FuseOnFail α ε) :
    SPoll (FuseOnFail α ε) (Except ε α) :=
  if m.fused then .fatal
  else if m.failed then .done ⟨m.src, true, true⟩
  else
    match m.src with
    | [] => .done ⟨[], true, false⟩
    | .pending :: r => .suspend ⟨r, false, false⟩
    | .ok v :: r => .item (.ok v) ⟨r, false, false⟩
    | .err e :: r => .item (.error e) ⟨r, false, true⟩

/-- `FuseOnFail::is_terminated` (the `FusedStream` impl). -/
def FuseOnFail.is_terminated (m : FuseOnFail α ε) : Bool := m.fused

end FuseOnFail

theorem fuseOnFail_passthrough :
    ∀ (vals : List α),
      collectP (FuseOnFail.poll_next (ε := ε)) (vals.length + 1)
          ⟨vals.map TEv.ok, false, false⟩
        = some (.out (vals.map Except.ok) ⟨[], true, false⟩) := by
  intro vals
  induction vals with
  | nil => simp [collectP, FuseOnFail.poll_next]
  | cons v tl ih =>
    have hp : FuseOnFail.poll_next (ε := ε)
          ⟨TEv.ok v :: tl.map TEv.ok, false, false⟩
        = .item (.ok v) ⟨tl.map TEv.ok, false, false⟩ := by
      simp [FuseOnFail.poll_next]
    simp only [List.length_cons, List.map_cons]
    rw [collectP_item _ _ _ _ _ hp, ih]

section Nth

/-!
`TryStreamNth` and `StreamNth` (src/nth.rs).  Both hold `src`, a
`fused` flag and a `remaining` count.  `TryStreamNth::poll` panics when
`fused` is already set, and sets `fused` only in the branch that
resolves with the value at the requested offset (not when resolving
with an error or with `Ok(None)`).  `StreamNth::poll` never reads or
writes its `fused` field at all, and its loop silently retries on
upstream `None` (`if let Some(next) = ...` with no else), so it is
modelled with fuel counting loop iterations: a `none` result means the
loop made that many iterations without resolving or suspending.
-/

/-- State of `TryStreamNth`. -/
structure TryStreamNth (α ε : Type) where
  src : List (TEv α ε)
  fused : Bool
  remaining : Nat

/-- The poll loop of `TryStreamNth::poll` (entered with `fused`
false): skip `remaining` values, resolve with the value at the offset
(setting `fused`), resolve immediately with any error, resolve with
`Ok(None)` on exhaustion — the latter two leave `fused` unset. -/
def TryStreamNth.pollLoop :
    List (TEv α ε) → Nat → FPoll (TryStreamNth α ε) (Except ε (Option α))
  | [], rem => .ready (.ok none) ⟨[], false, rem⟩
  | .pending :: r, rem => .suspend ⟨r, false, rem⟩
  | .ok v :: r, rem =>
    if rem = 0 then .ready (.ok (some v)) ⟨r, true, 0⟩
    else TryStreamNth.pollLoop r (rem - 1)
  | .err e :: r, rem => .ready (.error e) ⟨r, false, rem⟩

/-- `TryStreamNth::poll`. -/
def TryStreamNth.poll (m : TryStreamNth α ε) :
    FPoll (TryStreamNth α ε) (Except ε (Option α)) :=
  if m.fused then .fatal else TryStreamNth.pollLoop m.src m.remaining

/-- `TryStreamNth::first` = `TryStreamNth::new(src, 0)`. -/
def TryStreamNth.first (src : List (TEv α ε)) : TryStreamNth α ε :=
  ⟨src, false, 0⟩

/-- State of `StreamNth`.  The `fused` field exists in the source but
is never read or written by `StreamNth::poll`. -/
structure StreamNth (α : Type) where
  src : List (Ev α)
  fused : Bool
  remaining : Nat

/-- `StreamNth::poll`, fuel counting loop iterations.  When the
upstream reports `None` the `if let` falls through and the loop simply
runs again (against a fused upstream this re-polls it forever), so a
`none` result means the given number of iterations resolved nothing. -/
def StreamNth.poll : Nat → StreamNth α → Option (FPoll (StreamNth α) α)
  | 0, _ => none
  | fuel + 1, m =>
    match m.src with
    | [] => StreamNth.poll fuel m
    | .pending :: r => some (.suspend ⟨r, m.fused, m.remaining⟩)
    | .item v :: r =>
      if m.remaining = 0 then some (.ready v ⟨r, m.fused, 0⟩)
      else StreamNth.poll fuel ⟨r, m.fused, m.remaining - 1⟩

/-- `StreamNth::first` = `StreamNth::new(src, 0)`. -/
def StreamNth.first (src : List (Ev α)) : StreamNth α :=
  ⟨src, false, 0⟩

/-- A single `StreamNth::poll` call that never returns, however many
loop iterations it is given: the loop neither resolves, nor suspends,
nor panics. -/
def StreamNth.neverReturns (m : StreamNth α) : Prop :=
  ∀ fuel, StreamNth.poll fuel m = none

end Nth

theorem streamNth_exhausted_spins (m : StreamNth α) (hsrc : m.src = []) :
    StreamNth.neverReturns m := by
  intro fuel
  induction fuel with
  | zero => rfl
  | succ n ih => rw [StreamNth.poll, hsrc]; exact ih

section TryFirst

/-!
`TryStreamFirst` (src/try_first.rs): polls the upstream once, sets
`fused` on any resolution (value, error, or exhaustion), and panics if
polled with `fused` set.
-/

/-- State of `TryStreamFirst`. -/
structure TryStreamFirst (α ε : Type) where
  src : List (TEv α ε)
  fused : Bool

/-- `TryStreamFirst::poll`. -/
def TryStreamFirst.poll (m : TryStreamFirst α ε) :
    FPoll (TryStreamFirst α ε) (Except ε (Option α)) :=
  if m.fused then .fatal
  else
    match m.src with
    | [] => .ready (.ok none) ⟨[], true⟩
    | .pending :: r => .suspend ⟨r, false⟩
    | .ok v :: r => .ready (.ok (some v)) ⟨r, true⟩
    | .err e :: r => .ready (.error e) ⟨r, true⟩

end TryFirst

section TryFilterMapOk

/-!
`TryFilterMapOk` (src/try_filter_map_ok.rs): state is just the
upstream (the predicate is the explicit parameter `f`).  To state the
each-value-is-passed-to-the-function-exactly-once property, the poll
is instrumented with a ghost trace of the arguments handed to `f`
during that call; the ghost trace has no influence on the poll
result.
-/

/-- The poll loop of `TryFilterMapOk::poll_next` with a ghost trace of
the arguments passed to the function: an `Ok` value is handed to `f`;
a `some` result is emitted at once, a `none` result drops the value
and re-polls the upstream within the same call; errors and exhaustion
are forwarded without consulting `f`. -/
def TryFilterMapOk.pollLoop (f : α → Option β) :
    List (TEv α ε) → SPoll (List (TEv α ε)) (Except ε β) × List α
  | [] => (.done [], [])
  | .pending :: r => (.suspend r, [])
  | .ok v :: r =>
    match f v with
    | some out => (.item (.ok out) r, [v])
    | none =>
      match TryFilterMapOk.pollLoop f r with
      | (p, cs) => (p, v :: cs)
  | .err e :: r => (.item (.error e) r, [])

/-- `TryFilterMapOk::poll_next` without the ghost trace. -/
def TryFilterMapOk.poll_next (f : α → Option β) (src : List (TEv α ε)) :
    SPoll (List (TEv α ε)) (Except ε β) :=
  (TryFilterMapOk.pollLoop f src).1

/-- Drain `TryFilterMapOk`: emitted items plus the total ghost trace
of arguments passed to `f`, fuel counting poll calls. -/
def TryFilterMapOk.collect (f : α → Option β) :
    Nat → List (TEv α ε) → Option (List (Except ε β) × List α)
  | 0, _ => none
  | n + 1, src =>
    match TryFilterMapOk.pollLoop f src with
    | (.done _, cs) => some ([], cs)
    | (.suspend r, cs) =>
      (TryFilterMapOk.collect f n r).map (fun p => (p.1, cs ++ p.2))
    | (.item a r, cs) =>
      (TryFilterMapOk.collect f n r).map (fun p => (a :: p.1, cs ++ p.2))
    | (.fatal, _) => none

/-- Reference semantics: transformed `Ok` values are kept, filtered
ones dropped, errors forwarded verbatim. -/
def filterMapOkSpec (f : α → Option β) : List (TEv α ε) → List (Except ε β)
  | [] => []
  | .pending :: r => filterMapOkSpec f r
  | .ok v :: r =>
    match f v with
    | some out => .ok out :: filterMapOkSpec f r
    | none => filterMapOkSpec f r
  | .err e :: r => .error e :: filterMapOkSpec f r

end TryFilterMapOk

theorem tryFilterMapOk_collect (f : α → Option β) :
    ∀ (src : List (TEv α ε)),
      TryFilterMapOk.collect f (src.length + 1) src
        = some (filterMapOkSpec f src, TEv.okVals src) := by
  intro src
  induction src with
  | nil => simp [TryFilterMapOk.collect, TryFilterMapOk.pollLoop,
      filterMapOkSpec, TEv.okVals]
  | cons hd tl ih =>
    cases hd with
    | pending =>
      have hstep : TryFilterMapOk.collect f ((TEv.pending :: tl).length + 1)
          (TEv.pending :: tl)
          = (TryFilterMapOk.collect f (tl.length + 1) tl).map
              (fun p => (p.1, [] ++ p.2)) := by
        simp only [List.length_cons]
        rw [TryFilterMapOk.collect]
        have hp : TryFilterMapOk.pollLoop f (TEv.pending :: tl)
            = ((.suspend tl : SPoll (List (TEv α ε)) (Except ε β)), []) := by
          simp [TryFilterMapOk.pollLoop]
        rw [hp]
      rw [hstep, ih]
      simp [filterMapOkSpec, TEv.okVals]
    | err e =>
      have hstep : TryFilterMapOk.collect f ((TEv.err e :: tl).length + 1)
          (TEv.err e :: tl)
          = (TryFilterMapOk.collect f (tl.length + 1) tl).map
              (fun p => ((.error e : Except ε β) :: p.1, [] ++ p.2)) := by
        simp only [List.length_cons]
        rw [TryFilterMapOk.collect]
        have hp : TryFilterMapOk.pollLoop f (TEv.err e :: tl)
            = ((.item (.error e) tl : SPoll (List (TEv α ε)) (Except ε β)), []) := by
          simp [TryFilterMapOk.pollLoop]
        rw [hp]
      rw [hstep, ih]
      simp [filterMapOkSpec, TEv.okVals]
    | ok v =>
      cases hf : f v with
      | some out =>
        have hstep : TryFilterMapOk.collect f ((TEv.ok v :: tl).length + 1)
            (TEv.ok v :: tl)
            = (TryFilterMapOk.collect f (tl.length + 1) tl).map
                (fun p => ((.ok out : Except ε β) :: p.1, [v] ++ p.2)) := by
          simp only [List.length_cons]
          rw [TryFilterMapOk.collect]
          have hp : TryFilterMapOk.pollLoop f (TEv.ok v :: tl)
              = ((.item (.ok out) tl : SPoll (List (TEv α ε)) (Except ε β)), [v]) := by
            simp [TryFilterMapOk.pollLoop, hf]
          rw [hp]
        rw [hstep, ih]
        simp [filterMapOkSpec, TEv.okVals, hf]
      | none =>
        have hskip : ∀ (n : Nat),
            TryFilterMapOk.collect f (n + 1) (TEv.ok v :: tl)
              = (TryFilterMapOk.collect f (n + 1) tl).map
                  (fun p => (p.1, v :: p.2)) := by
          intro n
          rw [TryFilterMapOk.collect]
          conv_rhs => rw [TryFilterMapOk.collect]
          have hp : TryFilterMapOk.pollLoop f (TEv.ok v :: tl)
              = ((TryFilterMapOk.pollLoop f tl).1,
                 v :: (TryFilterMapOk.pollLoop f tl).2) := by
            simp [TryFilterMapOk.pollLoop, hf]
          rw [hp]
          cases hpl : TryFilterMapOk.pollLoop f tl with
          | mk p cs =>
            cases p with
            | done m2 => simp
            | fatal => simp
            | suspend r =>
              simp only []
              cases TryFilterMapOk.collect f n r with
              | none => simp
              | some q => simp
            | item a r =>
              simp only []
              cases TryFilterMapOk.collect f n r with
              | none => simp
              | some q => simp
        have hmono : ∀ (n : Nat) (s : List (TEv α ε)) (x : List (Except ε β) × List α),
            TryFilterMapOk.collect f n s = some x
              → TryFilterMapOk.collect f (n + 1) s = some x := by
          intro n
          induction n with
          | zero => intro s x hx; simp [TryFilterMapOk.collect] at hx
          | succ n ihm =>
            intro s x hx
            rw [TryFilterMapOk.collect] at hx
            rw [TryFilterMapOk.collect]
            cases hpl : TryFilterMapOk.pollLoop f s with
            | mk p cs =>
              rw [hpl] at hx
              cases p with
              | done m2 => exact hx
              | fatal => exact hx
              | suspend r =>
                have hx2 : (TryFilterMapOk.collect f n r).map
                    (fun p => (p.1, cs ++ p.2)) = some x := hx
                show (TryFilterMapOk.collect f (n + 1) r).map
                    (fun p => (p.1, cs ++ p.2)) = some x
                cases hrec : TryFilterMapOk.collect f n r with
                | none => rw [hrec] at hx2; simp at hx2
                | some y => rw [ihm r y hrec]; rw [hrec] at hx2; exact hx2
              | item a r =>
                have hx2 : (TryFilterMapOk.collect f n r).map
                    (fun p => (a :: p.1, cs ++ p.2)) = some x := hx
                show (TryFilterMapOk.collect f (n + 1) r).map
                    (fun p => (a :: p.1, cs ++ p.2)) = some x
                cases hrec : TryFilterMapOk.collect f n r with
                | none => rw [hrec] at hx2; simp at hx2
                | some y => rw [ihm r y hrec]; rw [hrec] at hx2; exact hx2
        simp only [List.length_cons]
        rw [hskip (tl.length + 1), hmono (tl.length + 1) tl _ ih]
        simp [filterMapOkSpec, TEv.okVals, hf]

/-- Inject an infallible upstream script into the fallible event type
(such a script carries no errors, by construction). -/
def Ev.toTEv : Ev α → TEv α ε
  | .pending => .pending
  | .item v => .ok v

/-- An always-succeeding fallible fold handler built from an
infallible one. -/
def pureTryHandler (h : σ → α → Nat × σ) : σ → α → Nat × Except ε σ :=
  fun a v => ((h a v).1, .ok (h a v).2)

theorem tryFoldRun_pure (h : σ → α → Nat × σ) :
    ∀ (up : List (Ev α)) (acc : σ),
      tryFoldRun (pureTryHandler (ε := ε) h) acc (up.map Ev.toTEv)
        = (.ok (List.foldl (fun a v => (h a v).2) acc (Ev.vals up)), []) := by
  intro up
  induction up with
  | nil => intro acc; simp [tryFoldRun, Ev.vals]
  | cons hd tl ih =>
    intro acc
    cases hd with
    | pending => simpa [Ev.toTEv, tryFoldRun, Ev.vals] using ih acc
    | item v =>
      simpa [Ev.toTEv, tryFoldRun, pureTryHandler, Ev.vals] using ih (h acc v).2

theorem tryFoldCost_pure (h : σ → α → Nat × σ) :
    ∀ (up : List (Ev α)) (acc : σ),
      tryFoldCost (pureTryHandler (ε := ε) h) acc (up.map Ev.toTEv)
        = foldCost h acc up := by
  intro up
  induction up with
  | nil => intro acc; simp [tryFoldCost, foldCost]
  | cons hd tl ih =>
    intro acc
    cases hd with
    | pending => simpa [Ev.toTEv, tryFoldCost, foldCost] using ih acc
    | item v =>
      simpa [Ev.toTEv, tryFoldCost, foldCost, pureTryHandler] using ih (h acc v).2

/-- C1: over an errorless, fused upstream emitting `v1..vn` (with
arbitrary interleaved suspensions, and handler sub-computations of
arbitrary delay, each driven to completion before the next upstream
value is pulled — the poll loop polls the pending future first and
only then the upstream), `FoldMut` resolves with the left fold of the
handler over the initial accumulator and `v1..vn` in order, and
`TryFoldMut` resolves with `Ok` of the same left fold; an empty
upstream yields the initial accumulator. -/
theorem c1_fold_left_fold (h : σ → α → Nat × σ) (init : σ) (up : List (Ev α)) :
    driveP (FoldMut.poll h) (foldCost h init up) ⟨up, none, some init⟩
      = some (.ready (List.foldl (fun a v => (h a v).2) init (Ev.vals up))
          ⟨[], none, none⟩)
  ∧ driveP (TryFoldMut.poll (pureTryHandler (ε := ε) h))
        (tryFoldCost (pureTryHandler (ε := ε) h) init (up.map Ev.toTEv))
        ⟨up.map Ev.toTEv, none, some init⟩
      = some (.ready (.ok (List.foldl (fun a v => (h a v).2) init (Ev.vals up)))
          ⟨[], none, none⟩) := by
  constructor
  · exact foldMut_master h up init
  · have hm := tryFoldMut_master (pureTryHandler (ε := ε) h) (up.map Ev.toTEv) init
    rw [tryFoldRun_pure h up init] at hm
    exact hm

/-- C7: whenever the fallible fold's reference run ends in an error —
because the upstream emitted an error item or because a handler
sub-computation completed with an error — `TryFoldMut` resolves with
exactly that error; the accumulator slot is emptied (`state = none`),
so the partially folded accumulator is never handed to the consumer. -/
theorem c7_try_fold_mut_error_discards (h : σ → α → Nat × Except ε σ)
    (init : σ) (up rest : List (TEv α ε)) (e : ε)
    (herr : tryFoldRun h init up = (.error e, rest)) :
    driveP (TryFoldMut.poll h) (tryFoldCost h init up) ⟨up, none, some init⟩
      = some (.ready (.error e) ⟨rest, none, none⟩) := by
  have hm := tryFoldMut_master h up init
  rw [herr] at hm
  exact hm

/-- Witness for C7, exercising a handler sub-computation that
completes with an error midway through the fold. -/
theorem c7_try_fold_mut_error_discards_witness :
    tryFoldRun (fun (a v : Nat) =>
        (0, if v = 1 then (.error 9 : Except Nat Nat) else .ok (a + v)))
      0 [TEv.ok 5, TEv.ok 1, TEv.ok 7] = (.error 9, [TEv.ok 7])
  ∧ driveP (TryFoldMut.poll (fun (a v : Nat) =>
        (0, if v = 1 then (.error 9 : Except Nat Nat) else .ok (a + v))))
      (tryFoldCost (fun (a v : Nat) =>
        (0, if v = 1 then (.error 9 : Except Nat Nat) else .ok (a + v)))
        0 [TEv.ok 5, TEv.ok 1, TEv.ok 7])
      ⟨[TEv.ok 5, TEv.ok 1, TEv.ok 7], none, some 0⟩
      = some (.ready (.error 9) ⟨[TEv.ok 7], none, none⟩) :=
  ⟨rfl, c7_try_fold_mut_error_discards _ 0 _ _ 9 rfl⟩

theorem dedup_loop_no_suspend (hash : α → Nat) :
    ∀ (vs : List α) (known : List Nat),
      (DedupStream.pollLoop hash (vs.map Ev.item) known).isSuspend = false := by
  intro vs
  induction vs with
  | nil => intro known; simp [DedupStream.pollLoop, SPoll.isSuspend]
  | cons v tl ih =>
    intro known
    by_cases hmem : hash v ∈ known
    · simpa [DedupStream.pollLoop, hmem] using ih known
    · simp [DedupStream.pollLoop, hmem, SPoll.isSuspend]

/-- C2: draining `DedupStream` emits exactly the first occurrences of
the upstream values in order, where two values count as the same
exactly when their fingerprints are equal; draining `TryDedupStream`
and keeping only the `Ok` items gives the same first-occurrence
subsequence of its `Ok` values; and on an upstream that never
suspends, a poll never reports `Pending` merely because values were
filtered — the dropped repeat leads to re-polling the upstream inside
the same call. -/
theorem c2_dedup_first_occurrences (hash : α → Nat) (src : List (Ev α))
    (tsrc : List (TEv α ε)) (vs : List α) (known : List Nat) :
    collectItems (DedupStream.poll_next hash) (src.length + 1) ⟨src, []⟩
      = some (firstOccurs hash [] (Ev.vals src))
  ∧ (collectItems (TryDedupStream.poll_next hash) (tsrc.length + 1) ⟨tsrc, []⟩).map
        (List.filterMap okPart)
      = some (firstOccurs hash [] (TEv.okVals tsrc))
  ∧ (DedupStream.poll_next hash ⟨vs.map Ev.item, known⟩).isSuspend = false := by
  refine ⟨?_, ?_, ?_⟩
  · rw [collectItems, dedup_collect hash src []]
  · rw [collectItems, tryDedup_collect hash tsrc []]
    simp [tryDedupSpec_okPart hash tsrc []]
  · exact dedup_loop_no_suspend hash vs known

/-- The concrete 64-bit fingerprint function used for the string
examples: the base-256 value of the character codes, reduced mod 2^64
(injective on the short strings involved). -/
def strFp (s : String) : Nat :=
  (s.data.map Char.toNat).foldl (fun a c => (a * 256 + c) % (2 ^ 64)) 1

/-- The upstream script of the spec's dedup-with-errors example. -/
def dedupErrScript : List (TEv String Nat) :=
  [.ok "hello", .ok "hello", .ok "abc z", .err 0, .ok "abc"]

/-- C8 counterexample: on the spec's own example the stream does not
stop after forwarding the error — a fourth poll keeps consuming the
upstream and emits `Ok "abc"`, so "polling after the error yields
nothing further" is false for the bare adapter. -/
theorem c8_counterexample_poll_after_error_continues :
    collectItems (TryDedupStream.poll_next strFp) 6 ⟨dedupErrScript, []⟩
      = some [.ok "hello", .ok "abc z", .error 0, .ok "abc"] := by
  rfl

/-- C8 (amended): errors are never deduplicated, filtered, or counted
as seen: each `Err` is forwarded on the very poll that observed it
with the seen set unchanged, the drained output is the reference
semantics in which every error survives verbatim (the `Err` projection
of the output is the full error list of the input), and the `Ok`
projection is the first-occurrence subsequence; after forwarding an
error the stream is not fused — it keeps consuming the upstream, as
the fourth emitted item `Ok "abc"` of the spec's example shows. -/
theorem c8_try_dedup_errors_forwarded (hash : α → Nat) (src : List (TEv α ε))
    (e : ε) (r : List (TEv α ε)) (known : List Nat) :
    TryDedupStream.poll_next hash ⟨.err e :: r, known⟩ = .item (.error e) ⟨r, known⟩
  ∧ collectP (TryDedupStream.poll_next hash) (src.length + 1) ⟨src, []⟩
      = some (.out (tryDedupSpec hash [] src) ⟨[], trySeenAfter hash [] src⟩)
  ∧ (tryDedupSpec hash [] src).filterMap errPart = TEv.errVals src
  ∧ (tryDedupSpec hash [] src).filterMap okPart
      = firstOccurs hash [] (TEv.okVals src)
  ∧ collectItems (TryDedupStream.poll_next strFp) 6 ⟨dedupErrScript, []⟩
      = some [.ok "hello", .ok "abc z", .error 0, .ok "abc"] := by
  refine ⟨rfl, tryDedup_collect hash src [], tryDedupSpec_errPart hash src [],
    tryDedupSpec_okPart hash src [], rfl⟩

/-- C3 counterexample: on `[Ok 1, Ok 2, Err 5, Ok 3]` the adapter
emits `Ok 1, Ok 2, Err 5` and reports Exhausted once (never observing
`3`), but it is not *permanently* exhausted: the very next poll is the
fatal `panic!("poll after fused!")`, not another Exhausted. -/
theorem c3_counterexample_not_permanently_exhausted :
    collectP FuseOnFail.poll_next 4
        (⟨[TEv.ok 1, TEv.ok 2, TEv.err 5, TEv.ok 3], false, false⟩ : FuseOnFail Nat Nat)
      = some (.out [.ok 1, .ok 2, .error 5] ⟨[TEv.ok 3], true, true⟩)
  ∧ FuseOnFail.poll_next (⟨[TEv.ok 3], true, true⟩ : FuseOnFail Nat Nat) = .fatal :=
  ⟨rfl, rfl⟩

/-- C3 (amended): for upstream `[Ok a, Ok b, Err e, Ok c]` the adapter
emits exactly `Ok a, Ok b`, then `Err e` on the same poll that
observed the error; the following poll reports Exhausted without
touching the upstream (`c` is never observed — it is still sitting in
the untouched upstream of the final machine), and every poll after
that is the fatal usage violation (`panic!`) rather than Exhausted
again; for an all-success upstream every item is forwarded unchanged
until exhaustion. -/
theorem c3_fuse_on_fail_error_example (a b c : α) (e : ε) (vals : List α) :
    collectP FuseOnFail.poll_next 4
        ⟨[TEv.ok a, TEv.ok b, TEv.err e, TEv.ok c], false, false⟩
      = some (.out [.ok a, .ok b, .error e] ⟨[TEv.ok c], true, true⟩)
  ∧ FuseOnFail.poll_next (⟨[TEv.ok c], true, true⟩ : FuseOnFail α ε) = .fatal
  ∧ collectP (FuseOnFail.poll_next (ε := ε)) (vals.length + 1)
        ⟨vals.map TEv.ok, false, false⟩
      = some (.out (vals.map Except.ok) ⟨[], true, false⟩) :=
  ⟨rfl, rfl, fuseOnFail_passthrough vals⟩

/-- C4 counterexample: on the poll that forwards the upstream error
the adapter only sets its `failed` flag; `is_terminated` reads the
`fused` flag, so the completion-status query made immediately after
that poll still answers false, contradicting the claim. -/
theorem c4_counterexample_is_terminated_after_error :
    FuseOnFail.poll_next (⟨[TEv.err 5], false, false⟩ : FuseOnFail Nat Nat)
      = .item (.error 5) ⟨[], false, true⟩
  ∧ FuseOnFail.is_terminated (⟨[], false, true⟩ : FuseOnFail Nat Nat) = false :=
  ⟨rfl, rfl⟩

/-- C4 (amended): the terminal flag (`fused`) is set by the poll that
observes upstream exhaustion, or by the poll *after* the one that
forwarded an error (that in-between poll reports Exhausted once,
without touching the upstream — its script is carried over
unchanged). Once `fused` is set, `is_terminated` answers true and
every subsequent poll is the fatal usage violation (again without
touching the upstream), not Exhausted; immediately after the
error-forwarding poll `is_terminated` still answers false. -/
theorem c4_fuse_on_fail_terminal_behavior (src : List (TEv α ε)) (failedFlag : Bool) :
    (FuseOnFail.poll_next ⟨src, true, failedFlag⟩ = .fatal
      ∧ FuseOnFail.is_terminated ⟨src, true, failedFlag⟩ = true)
  ∧ (FuseOnFail.poll_next ⟨src, false, true⟩ = .done ⟨src, true, true⟩
      ∧ FuseOnFail.is_terminated ⟨src, false, true⟩ = false)
  ∧ (FuseOnFail.poll_next (⟨[], false, false⟩ : FuseOnFail α ε)
        = .done ⟨[], true, false⟩
      ∧ FuseOnFail.is_terminated (⟨[], true, false⟩ : FuseOnFail α ε) = true) :=
  ⟨⟨rfl, rfl⟩, ⟨rfl, rfl⟩, rfl, rfl⟩

theorem tryNth_loop_value (v : α) :
    ∀ (pre post : List α),
      TryStreamNth.pollLoop (ε := ε) ((pre ++ v :: post).map TEv.ok) pre.length
        = .ready (.ok (some v)) ⟨post.map TEv.ok, true, 0⟩ := by
  intro pre
  induction pre with
  | nil => intro post; simp [TryStreamNth.pollLoop]
  | cons p tl ih =>
    intro post
    simpa [TryStreamNth.pollLoop] using ih post

theorem tryNth_loop_exhaust :
    ∀ (vals : List α) (k2 : Nat),
      TryStreamNth.pollLoop (ε := ε) (vals.map TEv.ok) (vals.length + k2)
        = .ready (.ok none) ⟨[], false, k2⟩ := by
  intro vals
  induction vals with
  | nil => intro k2; simp [TryStreamNth.pollLoop]
  | cons v tl ih =>
    intro k2
    have harith : tl.length + 1 + k2 - 1 = tl.length + k2 := by omega
    simpa [TryStreamNth.pollLoop, Nat.succ_add, harith] using ih k2

theorem tryNth_loop_error (e : ε) :
    ∀ (pre : List α) (rest : List (TEv α ε)) (k2 : Nat),
      TryStreamNth.pollLoop (pre.map TEv.ok ++ TEv.err e :: rest) (pre.length + k2)
        = .ready (.error e) ⟨rest, false, k2⟩ := by
  intro pre
  induction pre with
  | nil => intro rest k2; simp [TryStreamNth.pollLoop]
  | cons p tl ih =>
    intro rest k2
    have harith : tl.length + 1 + k2 - 1 = tl.length + k2 := by omega
    simpa [TryStreamNth.pollLoop, Nat.succ_add, harith] using ih rest k2

theorem streamNth_poll_value (v : α) :
    ∀ (pre post : List α),
      StreamNth.poll (pre.length + 1) ⟨(pre ++ v :: post).map Ev.item, false, pre.length⟩
        = some (.ready v ⟨post.map Ev.item, false, 0⟩) := by
  intro pre
  induction pre with
  | nil => intro post; simp [StreamNth.poll]
  | cons p tl ih =>
    intro post
    simpa [StreamNth.poll] using ih post

theorem streamNth_too_short_spins :
    ∀ (vals : List α) (k2 : Nat),
      StreamNth.neverReturns ⟨vals.map Ev.item, false, vals.length + k2⟩ := by
  intro vals
  induction vals with
  | nil =>
    intro k2
    exact streamNth_exhausted_spins _ rfl
  | cons v tl ih =>
    intro k2 fuel
    cases fuel with
    | zero => rfl
    | succ n =>
      rw [StreamNth.poll]
      have hne : ¬(tl.length + 1 + k2 = 0) := by omega
      have harith : tl.length + 1 + k2 - 1 = tl.length + k2 := by omega
      simpa [List.map_cons, Nat.succ_add, hne, harith] using ih k2 n

/-- C5 counterexample: `StreamNth::first` over an empty upstream never
resolves — each loop iteration finds the upstream exhausted, the
`if let Some(next)` falls through, and the loop re-polls the fused
upstream again, forever; the claim's "first of an empty sequence
yields none" is impossible (the infallible extractor's output type is
the bare item type and has no "none"). -/
theorem c5_counterexample_first_of_empty_never_none :
    StreamNth.neverReturns (StreamNth.first ([] : List (Ev Nat))) :=
  streamNth_exhausted_spins _ rfl

/-- C5 (amended): `TryStreamNth` behaves as claimed — it resolves with
`Ok(Some v)` when `v` sits at the requested offset, with `Ok(None)`
when the upstream exhausts first (offset 0 on an empty upstream
included), and an error at an index at or before the offset resolves
the future immediately with that error.  `StreamNth` resolves with the
value at the offset when one exists, but when the upstream exhausts
before the offset it never resolves at all: its poll loop re-polls the
exhausted upstream indefinitely, and no "none" can be produced. -/
theorem c5_nth_extraction (pre post vals : List α) (v : α) (e : ε)
    (rest : List (TEv α ε)) (k2 : Nat) :
    TryStreamNth.poll (⟨(pre ++ v :: post).map TEv.ok, false, pre.length⟩ :
        TryStreamNth α ε)
      = .ready (.ok (some v)) ⟨post.map TEv.ok, true, 0⟩
  ∧ TryStreamNth.poll (⟨vals.map TEv.ok, false, vals.length + k2⟩ :
        TryStreamNth α ε)
      = .ready (.ok none) ⟨[], false, k2⟩
  ∧ TryStreamNth.poll ⟨pre.map TEv.ok ++ TEv.err e :: rest, false, pre.length + k2⟩
      = .ready (.error e) ⟨rest, false, k2⟩
  ∧ StreamNth.poll (pre.length + 1) ⟨(pre ++ v :: post).map Ev.item, false, pre.length⟩
      = some (.ready v ⟨post.map Ev.item, false, 0⟩)
  ∧ StreamNth.neverReturns ⟨vals.map Ev.item, false, vals.length + k2⟩ := by
  refine ⟨?_, ?_, ?_, streamNth_poll_value v pre post, streamNth_too_short_spins vals k2⟩
  · simpa [TryStreamNth.poll] using tryNth_loop_value v pre post
  · simpa [TryStreamNth.poll] using tryNth_loop_exhaust vals k2
  · simpa [TryStreamNth.poll] using tryNth_loop_error e pre rest k2

/-- C6: the single-answer futures do *not* all reject re-polling with
the fatal signal.  `StreamNth` never touches its (dead) `fused` flag:
after resolving with `1`, a second poll happily consumes the upstream
and returns `2`.  `TryStreamNth` sets `fused` only when resolving with
a value: after resolving with `Err 5` a second poll returns
`Ok(Some 9)`, and after resolving with `Ok(None)` (exhausted upstream)
a further poll just returns `Ok(None)` again — no fatal signal in any
of these cases, contradicting the claim (the spec's intent, which the
code's own `fused` fields and "poll after completed" panic messages
show, is the uniform fatal signal). -/
theorem c6_repoll_not_always_fatal :
    StreamNth.poll 1 (StreamNth.first [Ev.item 1, Ev.item 2])
      = some (.ready 1 ⟨[Ev.item 2], false, 0⟩)
  ∧ StreamNth.poll 1 (⟨[Ev.item 2], false, 0⟩ : StreamNth Nat)
      = some (.ready 2 ⟨[], false, 0⟩)
  ∧ TryStreamNth.poll (TryStreamNth.first [TEv.err 5, TEv.ok 9])
      = .ready (.error 5) ⟨[TEv.ok 9], false, 0⟩
  ∧ TryStreamNth.poll (⟨[TEv.ok 9], false, 0⟩ : TryStreamNth Nat Nat)
      = .ready (.ok (some 9)) ⟨[], true, 0⟩
  ∧ TryStreamNth.poll (⟨[], false, 0⟩ : TryStreamNth Nat Nat)
      = .ready (.ok none) ⟨[], false, 0⟩ :=
  ⟨rfl, rfl, rfl, rfl, rfl⟩

/-- Encode a pending-free fallible script (every event is a value or
an error, never a suspension). -/
def TEv.ofSum : α ⊕ ε → TEv α ε
  | .inl a => .ok a
  | .inr e => .err e

theorem filterMapOk_no_suspend (f : α → Option β) :
    ∀ (items : List (α ⊕ ε)),
      (TryFilterMapOk.poll_next f (items.map TEv.ofSum)).isSuspend = false := by
  intro items
  induction items with
  | nil => simp [TryFilterMapOk.poll_next, TryFilterMapOk.pollLoop, SPoll.isSuspend]
  | cons hd tl ih =>
    cases hd with
    | inl v =>
      cases hf : f v with
      | some out =>
        simp [TryFilterMapOk.poll_next, TryFilterMapOk.pollLoop, TEv.ofSum, hf,
          SPoll.isSuspend]
      | none =>
        rw [TryFilterMapOk.poll_next] at ih ⊢
        simpa [TryFilterMapOk.pollLoop, TEv.ofSum, hf] using ih
    | inr e =>
      simp [TryFilterMapOk.poll_next, TryFilterMapOk.pollLoop, TEv.ofSum,
        SPoll.isSuspend]

/-- C9: draining `TryFilterMapOk` yields exactly the reference
semantics — each kept or transformed `Ok` value is emitted as `Ok`,
dropped values vanish, and every `Err` is forwarded verbatim — while
the ghost trace of arguments handed to the function is exactly the
list of upstream `Ok` values, each passed exactly once and in order
(so the function is never invoked on an error); on a pending-free
upstream a poll never reports `Pending` because a value was dropped —
the upstream is re-polled within the same call; and on the spec's
example with the keep-non-empty identity function the output is
exactly `[Ok "hello", Ok "world!"]`. -/
theorem c9_try_filter_map_ok (f : α → Option β) (src : List (TEv α ε))
    (items : List (α ⊕ ε)) :
    TryFilterMapOk.collect f (src.length + 1) src
      = some (filterMapOkSpec f src, TEv.okVals src)
  ∧ (TryFilterMapOk.poll_next f (items.map TEv.ofSum)).isSuspend = false
  ∧ TryFilterMapOk.collect
        (fun s => if s = "" then none else some s) 4
        ([.ok "hello", .ok "", .ok "world!"] : List (TEv String Nat))
      = some ([.ok "hello", .ok "world!"], ["hello", "", "world!"]) :=
  ⟨tryFilterMapOk_collect f src, filterMapOk_no_suspend f items, rfl⟩

/-- C10: the historical `TryStreamFirst` and `TryStreamNth::first` are
equivalent up to their first resolution: driven with the same fuel
over the same upstream script, they suspend at exactly the same polls
and resolve with exactly the same answer — `Ok(Some v)` for a first
`Ok(v)`, `Err(e)` for a first `Err(e)`, `Ok(None)` on exhaustion. -/
theorem c10_try_first_equiv_try_nth_first (src : List (TEv α ε)) (fuel : Nat) :
    (driveP TryStreamFirst.poll fuel ⟨src, false⟩).map FOut.val
      = (driveP TryStreamNth.poll fuel (TryStreamNth.first src)).map FOut.val := by
  induction src generalizing fuel with
  | nil =>
    cases fuel with
    | zero =>
      simp [driveP, TryStreamFirst.poll, TryStreamNth.poll, TryStreamNth.first,
        TryStreamNth.pollLoop, FOut.val]
    | succ n =>
      simp [driveP, TryStreamFirst.poll, TryStreamNth.poll, TryStreamNth.first,
        TryStreamNth.pollLoop, FOut.val]
  | cons hd tl ih =>
    cases hd with
    | pending =>
      have h1 : TryStreamFirst.poll ⟨TEv.pending :: tl, false⟩
          = .suspend ⟨tl, false⟩ := by
        simp [TryStreamFirst.poll]
      have h2 : TryStreamNth.poll (TryStreamNth.first (TEv.pending :: tl))
          = .suspend ⟨tl, false, 0⟩ := by
        simp [TryStreamNth.poll, TryStreamNth.first, TryStreamNth.pollLoop]
      cases fuel with
      | zero => simp [driveP, h1, h2]
      | succ n =>
        simp only [driveP, h1, h2]
        exact ih n
    | ok v =>
      cases fuel with
      | zero =>
        simp [driveP, TryStreamFirst.poll, TryStreamNth.poll, TryStreamNth.first,
          TryStreamNth.pollLoop, FOut.val]
      | succ n =>
        simp [driveP, TryStreamFirst.poll, TryStreamNth.poll, TryStreamNth.first,
          TryStreamNth.pollLoop, FOut.val]
    | err e =>
      cases fuel with
      | zero =>
        simp [driveP, TryStreamFirst.poll, TryStreamNth.poll, TryStreamNth.first,
          TryStreamNth.pollLoop, FOut.val]
      | succ n =>
        simp [driveP, TryStreamFirst.poll, TryStreamNth.poll, TryStreamNth.first,
          TryStreamNth.pollLoop, FOut.val]

end JStreamExt
